import Mathlib

set_option linter.unusedSectionVars false

/-!
Verification of the GElectrical topology resolver
(`gelectrical/model/pandapower.py`, `PandaPowerModel.setup_base_model` and
`PandaPowerModel.combine_connected_nodes`) and of the protection-curve engine
(`gelectrical/model/protection.py`, `ProtectionModel.evaluate_curves`).

The Python code is embedded shallowly: dictionaries become functions into
`Option`, the mutable two-pass resolver becomes explicit state threading, and
operations that can raise (`ports[0]` on an empty list, `dict[key]` on a
missing key, the external polygon constructor) return `Except`.
-/

namespace GElectrical

/-! ## Topology resolver: data model

A port as produced by `element.get_nodes` is either a same-page reference
`(x, y)` (length-2 tuple in the source) or a cross-page reference
`(p, x, y)` (length-3 tuple).  The resolver normalises both to a global
`MapPort` key `(page, x, y)`; equality is exact. -/

/-- A connection-point reference as returned by an element. -/
inductive Port where
  | samePage (x y : Int)
  | crossPage (p : Nat) (x y : Int)
deriving DecidableEq, Repr

/-- A port key in global coordinates: `(page, x, y)`.  Source comment:
`Maps (p,x,y) -> global_node`. -/
abbrev MapPort := Nat × Int × Int

/-- Embeds `map_port = (k1, *port) if len(port) == 2 else port`
(pandapower.py, lines 98–101 and 129–132). -/
def globalize (k1 : Nat) : Port → MapPort
  | .samePage x y => (k1, x, y)
  | .crossPage p x y => (p, x, y)

/-- One entry of `element.get_nodes(code)`: a local node id together with the
list of ports of that port group. -/
abbrev NodeGroup := Nat × List Port

/-- An element, represented by the node groups its `get_nodes` returns. -/
abbrev Element := List NodeGroup

/-- A drawing model: an ordered list of elements. -/
abbrev Drawing := List Element

/-! ## Duplicate-port unifier

`combine_connected_nodes` (pandapower.py, lines 798–816) builds an undirected
graph whose vertices are the port keys of all duplicate groups, with edges
between consecutive members of each group, and returns its connected
components via `networkx.connected_components`. -/

variable {κ : Type} [DecidableEq κ]

/-- Whether a class `c` shares at least one member with the group `g`. -/
def touches (g c : List κ) : Bool := c.any (fun x => g.contains x)

/-- Merge one duplicate group into the accumulated classes: all classes that
share a member with the group collapse into a single class together with the
group; the remaining classes are untouched. -/
def mergeStep (acc : List (List κ)) (g : List κ) : List (List κ) :=
  (g ++ (acc.filter (fun c => touches g c)).flatten)
    :: acc.filter (fun c => !(touches g c))

/-- Modelled from the spec: `combine_connected_nodes` builds a graph with the
members of each duplicate group path-connected and returns its connected
components (the source delegates the component search to `networkx`, which is
not part of this repository).  Folding the groups left to right and merging
every class that intersects the incoming group computes exactly those
components; the correctness theorems below prove this against the
chain-of-group-memberships relation. -/
def combine_connected_nodes (groups : List (List κ)) : List (List κ) :=
  groups.foldl mergeStep []

/-- Two keys are directly related when some duplicate group contains both. -/
def sameGroup (groups : List (List κ)) (x y : κ) : Prop :=
  ∃ g, g ∈ groups ∧ x ∈ g ∧ y ∈ g

/-- Keys are connected when a chain of duplicate-group memberships links
them: the equivalence closure of `sameGroup`. -/
def connectedKeys (groups : List (List κ)) (x y : κ) : Prop :=
  Relation.EqvGen (sameGroup groups) x y

/-- Invariant of the component-merging fold: after the groups `gs` have been
absorbed, the accumulated classes are nonempty, cover exactly the keys of
`gs`, are internally chain-connected, are closed under single group steps,
and are pairwise disjoint. -/
structure CCInv (gs acc : List (List κ)) : Prop where
  nonempty : ∀ c ∈ acc, c ≠ []
  cover : ∀ x : κ, (∃ c ∈ acc, x ∈ c) ↔ (∃ g ∈ gs, x ∈ g)
  conn : ∀ c ∈ acc, ∀ x ∈ c, ∀ y ∈ c, connectedKeys gs x y
  closed : ∀ c ∈ acc, ∀ x ∈ c, ∀ g ∈ gs, x ∈ g → ∀ y ∈ g, y ∈ c
  disj : acc.Pairwise (fun c d => ∀ x, x ∈ c → x ∉ d)

/-! ## Rebinding the merged classes

Embeds the loop `for duplicate_ports in duplicate_ports_list_comb:` of
`setup_base_model` (pandapower.py, lines 112–118): every merged class is
assigned one fresh global node number, overriding the tentative bindings of
all its port keys, and the allocation counter advances by one per class. -/

/-- Assign `start, start+1, …` to the classes in order, overriding the
mapping `m` on every member; returns the updated mapping and counter. -/
def assignFold (classes : List (List κ)) (start : Nat) (m : κ → Option Nat) :
    (κ → Option Nat) × Nat :=
  match classes with
  | [] => (m, start)
  | c :: rest =>
      assignFold rest (start + 1) (fun p => if p ∈ c then some start else m p)

/-! ## The two-pass resolver `setup_base_model`

The Python scan is `for k1, drawing_model in enumerate(self.drawing_models):
for k2, element in ...: for (p0, ports) in element.get_nodes(code):`.  Only
the drawing index `k1` influences the computation (the element index `k2`
is used solely to build the log/code string), so the scan is embedded as a
single left-to-right fold over the flattened `(k1, group)` sequence, which
preserves the exact iteration order. -/

/-- All `(drawing index, node group)` pairs in scan order. -/
def allGroups (drawings : List Drawing) : List (Nat × NodeGroup) :=
  (drawings.enum.map
    (fun k1d => k1d.2.flatten.map (fun grp => (k1d.1, grp)))).flatten

/-- Fault conditions of the resolver: `ports[0]` on an empty port list
raises `IndexError`; `self.port_mapping[map_port]` on an unregistered key
raises `KeyError` (the "unbound port reference" condition). -/
inductive ResolveErr where
  | indexError
  | unboundPortReference
deriving DecidableEq, Repr

/-- State threaded through pass 1: the tentative `port_mapping`, the
registered duplicate groups, the virtual global nodes and the allocation
counter `cur_gnode_num`. -/
structure Pass1State where
  pm : MapPort → Option Nat
  dups : List (List MapPort)
  virtuals : List Nat
  counter : Nat

/-- Embeds one iteration of the pass-1 loop body (pandapower.py, lines
92–110): an empty port list allocates a virtual global node; otherwise every
port is bound to the tentative node and, when the group has more than one
port, the group is registered for unification.  (The source collects the
group into a Python `set`; a list with the same members is used here, which
is membership-equivalent for the component search.) -/
def pass1Group (k1 : Nat) (st : Pass1State) (grp : NodeGroup) : Pass1State :=
  match grp.2 with
  | [] =>
      { st with virtuals := st.counter :: st.virtuals, counter := st.counter + 1 }
  | ports =>
      let mports := ports.map (globalize k1)
      { st with
        pm := fun q => if q ∈ mports then some st.counter else st.pm q,
        dups := if ports.length > 1 then st.dups ++ [mports] else st.dups,
        counter := st.counter + 1 }

/-- Pass 1 over the whole drawing set, starting from the freshly reset state
(lines 77–85). -/
def pass1 (drawings : List Drawing) : Pass1State :=
  (allGroups drawings).foldl (fun st kg => pass1Group kg.1 st kg.2)
    ⟨fun _ => none, [], [], 0⟩

/-- State threaded through pass 2: the `node_mapping` under construction and
the accumulated set of global nodes actually used. -/
structure Pass2State where
  nm : Nat → Option Nat
  gset : List Nat

/-- Embeds one iteration of the pass-2 loop body (lines 126–137):
`port = ports[0]` faults on an empty list, the lookup
`self.port_mapping[map_port]` faults on an unregistered key, and otherwise
the group's local node is bound to the (possibly overridden) global node. -/
def pass2Group (k1 : Nat) (pm : MapPort → Option Nat) (st : Pass2State)
    (grp : NodeGroup) : Except ResolveErr Pass2State :=
  match grp.2 with
  | [] => .error .indexError
  | port :: _ =>
      match pm (globalize k1 port) with
      | none => .error .unboundPortReference
      | some g =>
          .ok ⟨fun p => if p = grp.1 then some g else st.nm p, g :: st.gset⟩

/-- Pass 2 over the whole drawing set. -/
def pass2 (drawings : List Drawing) (pm : MapPort → Option Nat) :
    Except ResolveErr Pass2State :=
  (allGroups drawings).foldlM (fun st kg => pass2Group kg.1 pm st kg.2)
    ⟨fun _ => none, []⟩

/-- The result record of a resolution: the four output fields of
`setup_base_model`. -/
structure ResolveOut where
  port_mapping : MapPort → Option Nat
  node_mapping : Nat → Option Nat
  global_nodes : List Nat
  virtual_global_nodes : List Nat

/-- The unified `port_mapping` after pass 1 and the rebinding of the merged
classes (lines 111–118): the duplicate groups registered by pass 1 are
combined into connected classes and each class is rebound to a fresh global
node starting at the pass-1 counter. -/
def setupPM (drawings : List Drawing) : MapPort → Option Nat :=
  (assignFold (combine_connected_nodes (pass1 drawings).dups)
    (pass1 drawings).counter (pass1 drawings).pm).1

/-- Embeds `PandaPowerModel.setup_base_model` (pandapower.py, lines 76–139):
pass 1, unification of the registered duplicate groups with rebinding of
every merged class to a fresh global node, then pass 2. -/
def setup_base_model (drawings : List Drawing) : Except ResolveErr ResolveOut :=
  match pass2 drawings (setupPM drawings) with
  | .error e => .error e
  | .ok st2 =>
      .ok ⟨setupPM drawings, st2.nm, st2.gset, (pass1 drawings).virtuals⟩

/-- The mutable object state relevant to resolution: the drawing models and
the four result fields, which `setup_base_model` resets and rebuilds. -/
structure ModelState where
  drawing_models : List Drawing
  port_mapping : MapPort → Option Nat
  node_mapping : Nat → Option Nat
  global_nodes : List Nat
  virtual_global_nodes : List Nat

/-- Running `setup_base_model` on a model object: the previous mapping state
is discarded (the method reassigns all four fields from fresh dictionaries
before populating them) and the result of resolving `drawing_models` is
stored. -/
def setup_state (s : ModelState) : Except ResolveErr ModelState :=
  match setup_base_model s.drawing_models with
  | .error e => .error e
  | .ok r =>
      .ok { s with
            port_mapping := r.port_mapping,
            node_mapping := r.node_mapping,
            global_nodes := r.global_nodes,
            virtual_global_nodes := r.virtual_global_nodes }

/-- Invariant of pass 1: bound global nodes and virtual global nodes are
below the counter and mutually disjoint, and every registered duplicate
group is nonempty with all members tentatively bound. -/
structure P1Inv (st : Pass1State) : Prop where
  pm_lt : ∀ q v, st.pm q = some v → v < st.counter
  pm_nv : ∀ q v, st.pm q = some v → v ∉ st.virtuals
  virt_lt : ∀ v ∈ st.virtuals, v < st.counter
  dups_some : ∀ g ∈ st.dups, ∀ q ∈ g, (st.pm q).isSome = true
  dups_ne : ∀ g ∈ st.dups, g ≠ []

/-! ## Protection curve engine

Embeds the curve-family functions and `eval_curve` defined inside
`ProtectionModel.evaluate_curves` (protection.py, lines 139–225).  The
numerics are modelled over the real numbers. -/

/-- Embeds `np.geomspace(i1, i2, num=n)`: `n` geometrically spaced samples,
`i1 * (i2/i1) ^ (j/(n-1))` for `j = 0, …, n-1` (numpy includes both
endpoints; for `n = 1` numpy returns just `[i1]`, which the `0/0 = 0`
convention of the real division below reproduces). -/
noncomputable def geomspace (i1 i2 : ℝ) (n : ℕ) : List ℝ :=
  (List.range n).map
    (fun (j : ℕ) => i1 * (i2 / i1) ^ ((j : ℝ) / ((n : ℝ) - 1)))

/-- Embeds the inner function `point(i1, t1)`. -/
def point (i1 t1 : ℝ) : List ℝ × List ℝ := ([i1], [t1])

/-- Embeds the inner function `iec(tms, i_n, k, c, alpha, i1, i2, t_min, n)`:
for `i2 > i1`, geometric samples paired with
`max(tms*(k/((i/i_n)**alpha - 1) + c), t_min)`; otherwise two empty lists. -/
noncomputable def iec (tms i_n k c alpha i1 i2 t_min : ℝ) (n : ℕ) :
    List ℝ × List ℝ :=
  if i2 > i1 then
    let i_array := geomspace i1 i2 n
    (i_array,
     i_array.map (fun i => max (tms * (k / ((i / i_n) ^ alpha - 1) + c)) t_min))
  else ([], [])

/-- Embeds the inner function `thermal(tms, i_n, i1, i2, n)` (IEC 60255-8):
geometric samples paired with `tms*log(i**2/(i**2 - i_n**2))`; note the
absence of any `i2 > i1` guard. -/
noncomputable def thermal (tms i_n i1 i2 : ℝ) (n : ℕ) : List ℝ × List ℝ :=
  let i_array := geomspace i1 i2 n
  (i_array,
   i_array.map (fun i => tms * Real.log (i ^ 2 / (i ^ 2 - i_n ^ 2))))

/-- Embeds the inner function `i2t(tms, i_n, k, alpha, i1, i2, t_min, n)`:
for `i2 > i1`, geometric samples paired with
`max(tms*(k/(i/i_n)**alpha), t_min)`; otherwise two empty lists. -/
noncomputable def i2t (tms i_n k alpha i1 i2 t_min : ℝ) (n : ℕ) :
    List ℝ × List ℝ :=
  if i2 > i1 then
    let i_array := geomspace i1 i2 n
    (i_array, i_array.map (fun i => max (tms * (k / (i / i_n) ^ alpha)) t_min))
  else ([], [])

/-- Embeds `iec_inverse` (IEC 60255-3, k=0.14, c=0, alpha=0.02). -/
noncomputable def iec_inverse (tms i_n i1 i2 t_min : ℝ) (n : ℕ) :=
  iec tms i_n 0.14 0 0.02 i1 i2 t_min n

/-- Embeds `iec_v_inverse` (IEC 60255-3, k=13.5, c=0, alpha=1). -/
noncomputable def iec_v_inverse (tms i_n i1 i2 t_min : ℝ) (n : ℕ) :=
  iec tms i_n 13.5 0 1 i1 i2 t_min n

/-- Embeds `iec_e_inverse` (IEC 60255-3, k=80, c=0, alpha=2). -/
noncomputable def iec_e_inverse (tms i_n i1 i2 t_min : ℝ) (n : ℕ) :=
  iec tms i_n 80 0 2 i1 i2 t_min n

/-- Embeds `ieee_m_inverse` (k=0.0515, c=0.1140, alpha=0.02). -/
noncomputable def ieee_m_inverse (tms i_n i1 i2 t_min : ℝ) (n : ℕ) :=
  iec tms i_n 0.0515 0.1140 0.02 i1 i2 t_min n

/-- Embeds `ieee_v_inverse` (k=19.61, c=0.491, alpha=2). -/
noncomputable def ieee_v_inverse (tms i_n i1 i2 t_min : ℝ) (n : ℕ) :=
  iec tms i_n 19.61 0.491 2 i1 i2 t_min n

/-- Embeds `ieee_e_inverse` (k=28.2, c=0.1217, alpha=2). -/
noncomputable def ieee_e_inverse (tms i_n i1 i2 t_min : ℝ) (n : ℕ) :=
  iec tms i_n 28.2 0.1217 2 i1 i2 t_min n

/-- A curve-segment argument: a numeric literal, or a symbolic reference
`scope.field` that the source resolves by executing the reference text with
`eval(x, {'f': f, 'd': d})`. -/
inductive CurveArg where
  | num (v : ℝ)
  | ref (scope : String) (field : String)

/-- One curve segment `(function_name, arg, …)`. -/
abbrev Segment := String × List CurveArg

/-- Modelled from the spec: a variable scope (`misc.FieldDict`, not part of
this repository) maps field names to numeric values; attribute lookup on a
missing name faults. -/
abbrev Scope := List (String × ℝ)

/-- Looks a field name up in a scope. -/
def lookupField (s : Scope) (name : String) : Option ℝ :=
  match s with
  | [] => none
  | (k, v) :: rest => if k = name then some v else lookupField rest name

/-- Failure conditions of curve evaluation: unknown function name
(`NameError` from `eval(func_str, func_dict)`), unresolved symbolic argument
(fault from `eval(x, var_dict)`), wrong argument arity (`TypeError` from the
call), and the degenerate-geometry fault of the external polygon
constructor. -/
inductive CurveError where
  | unknownFunction (name : String)
  | unresolvedSymbol (scope field : String)
  | arityMismatch (name : String)
  | degenerateGeometry
deriving DecidableEq, Repr

/-- The function names present in `func_dict` (protection.py, lines
187–197). -/
def knownFunction (name : String) : Bool :=
  name ∈ ["point", "iec", "iec_inverse", "iec_v_inverse", "iec_e_inverse",
          "ieee_m_inverse", "ieee_v_inverse", "ieee_e_inverse",
          "thermal", "i2t"]

/-- Resolves one segment argument: numbers pass through
(`isinstance(x, (int, float))`), references are looked up in the named
scope. -/
def resolveArg (f d : Scope) : CurveArg → Except CurveError ℝ
  | .num v => .ok v
  | .ref sc fld =>
      match (if sc = "f" then some f else if sc = "d" then some d else none) with
      | none => .error (.unresolvedSymbol sc fld)
      | some s =>
          match lookupField s fld with
          | none => .error (.unresolvedSymbol sc fld)
          | some v => .ok v

/-- Resolves a segment's argument list left to right; the first failing
lookup aborts the whole list, as the exception does in the source's list
comprehension. -/
def resolveArgs (f d : Scope) : List CurveArg → Except CurveError (List ℝ)
  | [] => .ok []
  | a :: rest =>
      match resolveArg f d a with
      | .error e => .error e
      | .ok v =>
          match resolveArgs f d rest with
          | .error e => .error e
          | .ok vs => .ok (v :: vs)

/-- Dispatches a known function name on fully resolved numeric arguments;
the sample count `n` arrives as a number and is truncated to a natural. -/
noncomputable def applyFunc (name : String) (args : List ℝ) :
    Except CurveError (List ℝ × List ℝ) :=
  match name, args with
  | "point", [i1, t1] => .ok (point i1 t1)
  | "iec", [tms, i_n, k, c, alpha, i1, i2, t_min, n] =>
      .ok (iec tms i_n k c alpha i1 i2 t_min ⌊n⌋₊)
  | "iec_inverse", [tms, i_n, i1, i2, t_min, n] =>
      .ok (iec_inverse tms i_n i1 i2 t_min ⌊n⌋₊)
  | "iec_v_inverse", [tms, i_n, i1, i2, t_min, n] =>
      .ok (iec_v_inverse tms i_n i1 i2 t_min ⌊n⌋₊)
  | "iec_e_inverse", [tms, i_n, i1, i2, t_min, n] =>
      .ok (iec_e_inverse tms i_n i1 i2 t_min ⌊n⌋₊)
  | "ieee_m_inverse", [tms, i_n, i1, i2, t_min, n] =>
      .ok (ieee_m_inverse tms i_n i1 i2 t_min ⌊n⌋₊)
  | "ieee_v_inverse", [tms, i_n, i1, i2, t_min, n] =>
      .ok (ieee_v_inverse tms i_n i1 i2 t_min ⌊n⌋₊)
  | "ieee_e_inverse", [tms, i_n, i1, i2, t_min, n] =>
      .ok (ieee_e_inverse tms i_n i1 i2 t_min ⌊n⌋₊)
  | "thermal", [tms, i_n, i1, i2, n] => .ok (thermal tms i_n i1 i2 ⌊n⌋₊)
  | "i2t", [tms, i_n, k, alpha, i1, i2, t_min, n] =>
      .ok (i2t tms i_n k alpha i1 i2 t_min ⌊n⌋₊)
  | _, _ => .error (.arityMismatch name)

/-- Embeds the loop of `eval_curve` (lines 200–207): for each segment, first
dispatch the function name against `func_dict` (a `NameError` surfaces for
an unknown name before anything else runs), then resolve the arguments,
call the function and append its two sample lists to the accumulators. -/
noncomputable def eval_segments (f d : Scope) :
    List Segment → Except CurveError (List ℝ × List ℝ)
  | [] => .ok ([], [])
  | (name, args) :: rest =>
      if knownFunction name then
        match resolveArgs f d args with
        | .error e => .error e
        | .ok vs =>
            match applyFunc name vs with
            | .error e => .error e
            | .ok (ia, ta) =>
                match eval_segments f d rest with
                | .error e => .error e
                | .ok (ri, rt) => .ok (ia ++ ri, ta ++ rt)
      else .error (.unknownFunction name)

/-- Embeds `eval_curve` (lines 199–216): the accumulated current and time
lists zipped into one point sequence. -/
noncomputable def eval_curve (f d : Scope) (curve : List Segment) :
    Except CurveError (List (ℝ × ℝ)) :=
  (eval_segments f d curve).map (fun p => p.1.zip p.2)

/-- Modelled from the spec: the external geometry library's polygon
constructor (`shapely.Polygon`, not part of this repository) — "degenerate
inputs (fewer than 3 combined points) cannot form a polygon"; the
constructor faults on them.  The fault originates in the library:
`evaluate_curves` performs no detection of its own. -/
def Polygon_mk (pts : List (ℝ × ℝ)) : Except CurveError (List (ℝ × ℝ)) :=
  if pts.length < 3 then .error .degenerateGeometry else .ok pts

/-- The generated fields of `evaluate_curves`: the two evaluated curves, the
two boundary line strings and the coordination polygon's boundary points. -/
structure CurveEval where
  curve_upper : List (ℝ × ℝ)
  curve_lower : List (ℝ × ℝ)
  linestring_upper : List (ℝ × ℝ)
  linestring_lower : List (ℝ × ℝ)
  polygon : List (ℝ × ℝ)

/-- Embeds `ProtectionModel.evaluate_curves` (lines 218–225): evaluate the
upper and lower curves, then build `LineString(reversed(curve_upper))`,
`LineString(curve_lower)` and
`Polygon(list(reversed(curve_upper)) + curve_lower)`. -/
noncomputable def evaluate_curves (f d : Scope) (curve_u curve_l : List Segment) :
    Except CurveError CurveEval :=
  match eval_curve f d curve_u with
  | .error e => .error e
  | .ok u =>
      match eval_curve f d curve_l with
      | .error e => .error e
      | .ok l =>
          match Polygon_mk (u.reverse ++ l) with
          | .error e => .error e
          | .ok poly => .ok ⟨u, l, u.reverse, l, poly⟩

/-- A segment is invalid when its function name is not in `func_dict` or one
of its symbolic arguments does not resolve against the `f` and `d`
scopes. -/
def segmentInvalid (f d : Scope) (seg : Segment) : Prop :=
  knownFunction seg.1 = false ∨
    ∃ a ∈ seg.2, ∃ sc fld,
      resolveArg f d a = .error (CurveError.unresolvedSymbol sc fld)

/-- The concrete upper-curve specification of the polygon example: the
points `(1, 10)` and `(2, 5)`. -/
def exampleUpper : List Segment :=
  [("point", [CurveArg.num 1, CurveArg.num 10]),
   ("point", [CurveArg.num 2, CurveArg.num 5])]

/-- The concrete lower-curve specification of the polygon example: the
points `(1, 1)` and `(2, 0.5)`. -/
def exampleLower : List Segment :=
  [("point", [CurveArg.num 1, CurveArg.num 1]),
   ("point", [CurveArg.num 2, CurveArg.num 0.5])]

/-! ## Shared concrete inputs for instance checks -/

/-- Port key `A` of the transitive-merge example. -/
def portA : MapPort := (0, 0, 0)

/-- Port key `B` of the transitive-merge example. -/
def portB : MapPort := (0, 1, 0)

/-- Port key `C` of the transitive-merge example. -/
def portC : MapPort := (0, 2, 0)

/-- The duplicate groups `[A, B]` and `[B, C]` of the transitive-merge
example. -/
def abGroups : List (List MapPort) := [[portA, portB], [portB, portC]]

/-- A small drawing set: one drawing with one element exposing a
single-port group and a two-port group. -/
def exampleDrawings : List Drawing :=
  [[[(7, [Port.samePage 0 0]), (8, [Port.samePage 0 0, Port.samePage 1 1])]]]

/-- A model state holding `exampleDrawings` and empty stale mappings. -/
def exampleState1 : ModelState :=
  ⟨exampleDrawings, fun _ => none, fun _ => none, [], []⟩

/-- A model state holding `exampleDrawings` and non-trivial stale mappings
left over from an earlier resolution. -/
def exampleState2 : ModelState :=
  ⟨exampleDrawings, fun _ => some 99, fun _ => some 99, [5], [6]⟩

/-! ## Theorems -/

theorem touches_iff (g c : List κ) : touches g c = true ↔ ∃ x ∈ c, x ∈ g := by
  simp [touches]

/-- In a pairwise-disjoint family, a key determines its container. -/
theorem uniqueContainer {acc : List (List κ)}
    (hd : acc.Pairwise (fun c d => ∀ x, x ∈ c → x ∉ d))
    {c d : List κ} {x : κ} (hc : c ∈ acc) (hdm : d ∈ acc)
    (hxc : x ∈ c) (hxd : x ∈ d) : c = d := by
  induction acc with
  | nil => cases hc
  | cons a t ih =>
    rcases List.pairwise_cons.mp hd with ⟨ha, ht⟩
    rcases List.mem_cons.mp hc with hc | hc <;>
      rcases List.mem_cons.mp hdm with hdm | hdm
    · exact hc.trans hdm.symm
    · exact absurd hxd (ha d hdm x (hc ▸ hxc))
    · exact absurd hxc (ha c hc x (hdm ▸ hxd))
    · exact ih ht hc hdm

theorem sameGroup_mono {gs gs' : List (List κ)} (hsub : ∀ g ∈ gs, g ∈ gs')
    {x y : κ} (h : sameGroup gs x y) : sameGroup gs' x y := by
  obtain ⟨g, hg, hx, hy⟩ := h
  exact ⟨g, hsub g hg, hx, hy⟩

theorem connectedKeys_mono {gs gs' : List (List κ)} (hsub : ∀ g ∈ gs, g ∈ gs')
    {x y : κ} (h : connectedKeys gs x y) : connectedKeys gs' x y := by
  induction h with
  | rel a b hab => exact Relation.EqvGen.rel a b (sameGroup_mono hsub hab)
  | refl a => exact Relation.EqvGen.refl a
  | symm a b _ ih => exact Relation.EqvGen.symm a b ih
  | trans a b c _ _ ih1 ih2 => exact Relation.EqvGen.trans a b c ih1 ih2

/-- Classes of a `CCInv`-family are stable under connectivity: a connected
pair is in a class together or in none. -/
theorem ccinv_class_stable {gs acc : List (List κ)} (hinv : CCInv gs acc)
    {x y : κ} (h : connectedKeys gs x y) :
    ∀ c ∈ acc, (x ∈ c ↔ y ∈ c) := by
  induction h with
  | rel a b hab =>
    intro c hc
    obtain ⟨g, hg, hag, hbg⟩ := hab
    exact ⟨fun hac => hinv.closed c hc a hac g hg hag b hbg,
           fun hbc => hinv.closed c hc b hbc g hg hbg a hag⟩
  | refl a => intro c _; exact Iff.rfl
  | symm a b _ ih => intro c hc; exact (ih c hc).symm
  | trans a b c _ _ ih1 ih2 => intro d hd; exact (ih1 d hd).trans (ih2 d hd)

theorem mergeStep_inv {gs acc : List (List κ)} {g : List κ}
    (hinv : CCInv gs acc) (hg : g ≠ []) :
    CCInv (gs ++ [g]) (mergeStep acc g) := by
  have hmem_ext : ∀ h ∈ gs, h ∈ gs ++ [g] := fun h hh => List.mem_append_left _ hh
  have hgmem : g ∈ gs ++ [g] := List.mem_append_right _ (List.mem_singleton.mpr rfl)
  constructor
  · -- nonempty
    intro c hc
    rcases List.mem_cons.mp hc with hc | hc
    · subst hc
      intro hcontra
      rcases List.append_eq_nil.mp hcontra with ⟨hg', _⟩
      exact hg hg'
    · exact hinv.nonempty c ((List.filter_sublist acc).mem hc)
  · -- cover
    intro x
    constructor
    · rintro ⟨c, hc, hxc⟩
      rcases List.mem_cons.mp hc with hc | hc
      · subst hc
        rcases List.mem_append.mp hxc with hxg | hxf
        · exact ⟨g, hgmem, hxg⟩
        · obtain ⟨c', hc', hxc'⟩ := List.mem_flatten.mp hxf
          have hc'acc : c' ∈ acc := (List.filter_sublist acc).mem hc'
          obtain ⟨g', hg', hxg'⟩ := (hinv.cover x).mp ⟨c', hc'acc, hxc'⟩
          exact ⟨g', hmem_ext g' hg', hxg'⟩
      · have hcacc : c ∈ acc := (List.filter_sublist acc).mem hc
        obtain ⟨g', hg', hxg'⟩ := (hinv.cover x).mp ⟨c, hcacc, hxc⟩
        exact ⟨g', hmem_ext g' hg', hxg'⟩
    · rintro ⟨g', hg', hxg'⟩
      rcases List.mem_append.mp hg' with hg' | hg'
      · obtain ⟨c, hc, hxc⟩ := (hinv.cover x).mpr ⟨g', hg', hxg'⟩
        by_cases ht : touches g c = true
        · refine ⟨g ++ (acc.filter (fun c => touches g c)).flatten, List.mem_cons_self _ _, ?_⟩
          exact List.mem_append_right _
            (List.mem_flatten.mpr ⟨c, List.mem_filter.mpr ⟨hc, ht⟩, hxc⟩)
        · refine ⟨c, List.mem_cons_of_mem _ ?_, hxc⟩
          exact List.mem_filter.mpr ⟨hc, by simp [ht]⟩
      · have : g' = g := List.mem_singleton.mp hg'
        subst this
        exact ⟨_, List.mem_cons_self _ _, List.mem_append_left _ hxg'⟩
  · -- conn
    intro c hc x hxc y hyc
    rcases List.mem_cons.mp hc with hc | hc
    · subst hc
      -- bridge every member of the merged class to the group `g`
      have bridge : ∀ z ∈ g ++ (acc.filter (fun c => touches g c)).flatten,
          ∃ w ∈ g, connectedKeys (gs ++ [g]) z w := by
        intro z hz
        rcases List.mem_append.mp hz with hzg | hzf
        · exact ⟨z, hzg, Relation.EqvGen.refl z⟩
        · obtain ⟨c', hc', hzc'⟩ := List.mem_flatten.mp hzf
          have hc'f := List.mem_filter.mp hc'
          obtain ⟨w, hwc', hwg⟩ := (touches_iff g c').mp hc'f.2
          refine ⟨w, hwg, ?_⟩
          exact connectedKeys_mono hmem_ext (hinv.conn c' hc'f.1 z hzc' w hwc')
      obtain ⟨wx, hwxg, hx⟩ := bridge x hxc
      obtain ⟨wy, hwyg, hy⟩ := bridge y hyc
      have hmid : connectedKeys (gs ++ [g]) wx wy :=
        Relation.EqvGen.rel _ _ ⟨g, hgmem, hwxg, hwyg⟩
      exact Relation.EqvGen.trans _ _ _ (Relation.EqvGen.trans _ _ _ hx hmid)
        (Relation.EqvGen.symm _ _ hy)
    · have hcacc : c ∈ acc := (List.filter_sublist acc).mem hc
      exact connectedKeys_mono hmem_ext (hinv.conn c hcacc x hxc y hyc)
  · -- closed
    intro c hc x hxc g' hg' hxg' y hyg'
    rcases List.mem_cons.mp hc with hc | hc
    · subst hc
      rcases List.mem_append.mp hg' with hg'gs | hg'g
      · -- old group: its members all live in one old class
        obtain ⟨c0, hc0, hxc0⟩ := (hinv.cover x).mpr ⟨g', hg'gs, hxg'⟩
        have hyc0 : y ∈ c0 := hinv.closed c0 hc0 x hxc0 g' hg'gs hxg' y hyg'
        -- show c0 is a touched class, so c0's members are in the merged class
        have hc0touched : touches g c0 = true := by
          rcases List.mem_append.mp hxc with hxg | hxf
          · exact (touches_iff g c0).mpr ⟨x, hxc0, hxg⟩
          · obtain ⟨c', hc', hxc'⟩ := List.mem_flatten.mp hxf
            have hc'f := List.mem_filter.mp hc'
            have : c0 = c' := uniqueContainer hinv.disj hc0 hc'f.1 hxc0 hxc'
            exact this ▸ hc'f.2
        exact List.mem_append_right _
          (List.mem_flatten.mpr ⟨c0, List.mem_filter.mpr ⟨hc0, hc0touched⟩, hyc0⟩)
      · have : g' = g := List.mem_singleton.mp hg'g
        subst this
        exact List.mem_append_left _ hyg'
    · -- untouched class
      have hcf := List.mem_filter.mp hc
      have hcacc : c ∈ acc := hcf.1
      rcases List.mem_append.mp hg' with hg'gs | hg'g
      · exact hinv.closed c hcacc x hxc g' hg'gs hxg' y hyg'
      · exfalso
        have : g' = g := List.mem_singleton.mp hg'g
        subst this
        have : touches g' c = true := (touches_iff g' c).mpr ⟨x, hxc, hxg'⟩
        simp [this] at hcf
  · -- disj
    refine List.pairwise_cons.mpr ⟨?_, ?_⟩
    · intro c hc x hxM hxc
      have hcf := List.mem_filter.mp hc
      rcases List.mem_append.mp hxM with hxg | hxf
      · have : touches g c = true := (touches_iff g c).mpr ⟨x, hxc, hxg⟩
        simp [this] at hcf
      · obtain ⟨c', hc', hxc'⟩ := List.mem_flatten.mp hxf
        have hc'f := List.mem_filter.mp hc'
        have : c' = c := uniqueContainer hinv.disj hc'f.1 hcf.1 hxc' hxc
        rw [this] at hc'f
        simp [hc'f.2] at hcf
    · exact hinv.disj.sublist (List.filter_sublist acc)

theorem foldl_mergeStep_inv {acc : List (List κ)} (rest : List (List κ))
    {gs : List (List κ)} (hinv : CCInv gs acc)
    (hne : ∀ g ∈ rest, g ≠ []) :
    CCInv (gs ++ rest) (rest.foldl mergeStep acc) := by
  induction rest generalizing gs acc with
  | nil => simpa using hinv
  | cons g t ih =>
    have h1 : CCInv (gs ++ [g]) (mergeStep acc g) :=
      mergeStep_inv hinv (hne g (List.mem_cons_self _ _))
    have h2 := ih h1 (fun g' hg' => hne g' (List.mem_cons_of_mem _ hg'))
    simpa [List.append_assoc] using h2

theorem combine_inv (groups : List (List κ)) (hne : ∀ g ∈ groups, g ≠ []) :
    CCInv groups (combine_connected_nodes groups) := by
  have base : CCInv ([] : List (List κ)) [] := by
    constructor <;> simp [connectedKeys]
  have h := foldl_mergeStep_inv groups base hne
  simpa [combine_connected_nodes] using h

/-- The classes produced by `combine_connected_nodes` realise exactly the
chain-of-group-memberships connectivity. -/
theorem combine_partition (groups : List (List κ)) (hne : ∀ g ∈ groups, g ≠ [])
    {x y : κ} (hx : ∃ g ∈ groups, x ∈ g) :
    (∃ c ∈ combine_connected_nodes groups, x ∈ c ∧ y ∈ c) ↔
      connectedKeys groups x y := by
  have hinv := combine_inv groups hne
  constructor
  · rintro ⟨c, hc, hxc, hyc⟩
    exact hinv.conn c hc x hxc y hyc
  · intro hconn
    obtain ⟨c, hc, hxc⟩ := (hinv.cover x).mpr hx
    exact ⟨c, hc, hxc, (ccinv_class_stable hinv hconn c hc).mp hxc⟩

theorem assignFold_not_mem {classes : List (List κ)} {p : κ}
    (hp : p ∉ classes.flatten) (start : Nat) (m : κ → Option Nat) :
    (assignFold classes start m).1 p = m p := by
  induction classes generalizing start m with
  | nil => rfl
  | cons c t ih =>
    have hpc : p ∉ c := fun h => hp (List.mem_flatten.mpr ⟨c, List.mem_cons_self _ _, h⟩)
    have hpt : p ∉ t.flatten := fun h => by
      obtain ⟨d, hd, hpd⟩ := List.mem_flatten.mp h
      exact hp (List.mem_flatten.mpr ⟨d, List.mem_cons_of_mem _ hd, hpd⟩)
    rw [assignFold, ih hpt]
    simp [hpc]

theorem assignFold_ge {classes : List (List κ)} {p : κ}
    (hp : p ∈ classes.flatten) (start : Nat) (m : κ → Option Nat) :
    ∃ k, (assignFold classes start m).1 p = some k ∧ start ≤ k := by
  induction classes generalizing start m with
  | nil => simp at hp
  | cons c t ih =>
    by_cases hpt : p ∈ t.flatten
    · obtain ⟨k, hk, hsk⟩ := ih hpt (start + 1) _
      exact ⟨k, hk, Nat.le_of_succ_le hsk⟩
    · have hpc : p ∈ c := by
        obtain ⟨d, hd, hpd⟩ := List.mem_flatten.mp hp
        rcases List.mem_cons.mp hd with hd | hd
        · exact hd ▸ hpd
        · exact absurd (List.mem_flatten.mpr ⟨d, hd, hpd⟩) hpt
      rw [assignFold, assignFold_not_mem hpt]
      exact ⟨start, by simp [hpc], le_refl start⟩

theorem assignFold_range {classes : List (List κ)} {p : κ} {v : Nat}
    {start : Nat} {m : κ → Option Nat}
    (h : (assignFold classes start m).1 p = some v) :
    m p = some v ∨ start ≤ v := by
  induction classes generalizing start m with
  | nil => exact Or.inl h
  | cons c t ih =>
    rw [assignFold] at h
    rcases ih h with h1 | h1
    · by_cases hpc : p ∈ c
      · simp [hpc] at h1
        omega
      · simp [hpc] at h1
        exact Or.inl h1
    · exact Or.inr (Nat.le_of_succ_le h1)

theorem assignFold_isSome {classes : List (List κ)} {p : κ}
    {start : Nat} {m : κ → Option Nat} (h : (m p).isSome = true) :
    ((assignFold classes start m).1 p).isSome = true := by
  induction classes generalizing start m with
  | nil => exact h
  | cons c t ih =>
    rw [assignFold]
    apply ih
    by_cases hpc : p ∈ c <;> simp [hpc, h]

/-- On keys of the covered classes, the assignment separates exactly the
classes: two covered keys receive the same number iff they share a class. -/
theorem assignFold_iff {classes : List (List κ)}
    (hd : classes.Pairwise (fun c d => ∀ x, x ∈ c → x ∉ d))
    {c d : List κ} {p q : κ} (hc : c ∈ classes) (hdm : d ∈ classes)
    (hpc : p ∈ c) (hqd : q ∈ d) (start : Nat) (m : κ → Option Nat) :
    ((assignFold classes start m).1 p = (assignFold classes start m).1 q ↔ c = d) := by
  induction classes generalizing start m with
  | nil => cases hc
  | cons c0 t ih =>
    rcases List.pairwise_cons.mp hd with ⟨h0, ht⟩
    have hval_head : ∀ r : κ, r ∈ c0 →
        (assignFold (c0 :: t) start m).1 r = some start := by
      intro r hr
      have hrt : r ∉ t.flatten := by
        intro hmem
        obtain ⟨e, he, hre⟩ := List.mem_flatten.mp hmem
        exact h0 e he r hr hre
      rw [assignFold, assignFold_not_mem hrt]
      simp [hr]
    have hval_tail : ∀ (e : List κ), e ∈ t → ∀ r ∈ e,
        (assignFold (c0 :: t) start m).1 r =
          (assignFold t (start + 1) (fun p => if p ∈ c0 then some start else m p)).1 r := by
      intro e he r hre
      rw [assignFold]
    rcases List.mem_cons.mp hc with hc0 | hct <;>
      rcases List.mem_cons.mp hdm with hd0 | hdt
    · subst hc0; subst hd0
      rw [hval_head p hpc, hval_head q hqd]
      simp
    · subst hc0
      have hne : ¬ (c = d) := by
        intro hcd
        exact h0 d hdt q (hcd ▸ hqd) hqd
      have hqt : q ∈ t.flatten := List.mem_flatten.mpr ⟨d, hdt, hqd⟩
      obtain ⟨k, hk, hsk⟩ := assignFold_ge hqt (start + 1)
        (fun r => if r ∈ c then some start else m r)
      rw [hval_head p hpc, hval_tail d hdt q hqd, hk]
      constructor
      · intro hcontra
        exact absurd (Option.some.inj hcontra) (by omega)
      · intro hcontra; exact absurd hcontra hne
    · subst hd0
      have hne : ¬ (c = d) := by
        intro hcd
        exact h0 c hct p (hcd ▸ hpc) hpc
      have hpt : p ∈ t.flatten := List.mem_flatten.mpr ⟨c, hct, hpc⟩
      obtain ⟨k, hk, hsk⟩ := assignFold_ge hpt (start + 1)
        (fun r => if r ∈ d then some start else m r)
      rw [hval_head q hqd, hval_tail c hct p hpc, hk]
      constructor
      · intro hcontra
        exact absurd (Option.some.inj hcontra) (by omega)
      · intro hcontra; exact absurd hcontra hne
    · rw [hval_tail c hct p hpc, hval_tail d hdt q hqd]
      exact ih ht hct hdt _ _

/-! ### Pass-1 invariants -/

theorem pass1Group_nil (k1 : Nat) (st : Pass1State) (p0 : Nat) :
    pass1Group k1 st (p0, []) =
      { st with virtuals := st.counter :: st.virtuals,
                counter := st.counter + 1 } := rfl

theorem pass1Group_cons (k1 : Nat) (st : Pass1State) (p0 : Nat) (p : Port)
    (ps : List Port) :
    pass1Group k1 st (p0, p :: ps) =
      { st with
        pm := fun q => if q ∈ (p :: ps).map (globalize k1) then some st.counter
                       else st.pm q,
        dups := if (p :: ps).length > 1
                then st.dups ++ [(p :: ps).map (globalize k1)] else st.dups,
        counter := st.counter + 1 } := rfl

theorem pass1Group_inv {st : Pass1State} (h : P1Inv st) (k1 : Nat)
    (grp : NodeGroup) : P1Inv (pass1Group k1 st grp) := by
  obtain ⟨p0, ports⟩ := grp
  cases ports with
  | nil =>
    rw [pass1Group_nil]
    refine ⟨?_, ?_, ?_, ?_, ?_⟩
    · intro q v hv
      dsimp only at hv ⊢
      exact Nat.lt_succ_of_lt (h.pm_lt q v hv)
    · intro q v hv hmem
      dsimp only at hv hmem
      rcases List.mem_cons.mp hmem with hveq | hmem
      · subst hveq
        exact absurd (h.pm_lt q _ hv) (lt_irrefl _)
      · exact h.pm_nv q v hv hmem
    · intro v hv
      dsimp only at hv ⊢
      rcases List.mem_cons.mp hv with hveq | hv
      · subst hveq
        exact Nat.lt_succ_self _
      · exact Nat.lt_succ_of_lt (h.virt_lt v hv)
    · intro g hg q hq
      dsimp only at hg ⊢
      exact h.dups_some g hg q hq
    · intro g hg
      dsimp only at hg
      exact h.dups_ne g hg
  | cons p ps =>
    rw [pass1Group_cons]
    refine ⟨?_, ?_, ?_, ?_, ?_⟩
    · intro q v hv
      dsimp only at hv ⊢
      by_cases hmem : q ∈ (p :: ps).map (globalize k1)
      · rw [if_pos hmem] at hv
        have : st.counter = v := Option.some.inj hv
        omega
      · rw [if_neg hmem] at hv
        exact Nat.lt_succ_of_lt (h.pm_lt q v hv)
    · intro q v hv
      dsimp only at hv ⊢
      by_cases hmem : q ∈ (p :: ps).map (globalize k1)
      · rw [if_pos hmem] at hv
        have hcv : st.counter = v := Option.some.inj hv
        intro hcontra
        exact absurd (h.virt_lt v hcontra) (hcv ▸ lt_irrefl _)
      · rw [if_neg hmem] at hv
        exact h.pm_nv q v hv
    · intro v hv
      dsimp only at hv ⊢
      exact Nat.lt_succ_of_lt (h.virt_lt v hv)
    · intro g hg q hq
      dsimp only at hg ⊢
      have hsome : (st.pm q).isSome = true →
          (if q ∈ (p :: ps).map (globalize k1) then some st.counter
           else st.pm q).isSome = true := by
        intro hq'
        by_cases hmem : q ∈ (p :: ps).map (globalize k1)
        · rw [if_pos hmem]; rfl
        · rw [if_neg hmem]; exact hq'
      by_cases hlen : ((p :: ps).length > 1)
      · rw [if_pos hlen] at hg
        rcases List.mem_append.mp hg with hg | hg
        · exact hsome (h.dups_some g hg q hq)
        · have hgeq : g = (p :: ps).map (globalize k1) := List.mem_singleton.mp hg
          rw [if_pos (hgeq ▸ hq)]
          rfl
      · rw [if_neg hlen] at hg
        exact hsome (h.dups_some g hg q hq)
    · intro g hg
      dsimp only at hg
      by_cases hlen : ((p :: ps).length > 1)
      · rw [if_pos hlen] at hg
        rcases List.mem_append.mp hg with hg | hg
        · exact h.dups_ne g hg
        · have hgeq : g = (p :: ps).map (globalize k1) := List.mem_singleton.mp hg
          subst hgeq
          simp
      · rw [if_neg hlen] at hg
        exact h.dups_ne g hg

theorem pass1_fold_inv (L : List (Nat × NodeGroup)) {st : Pass1State}
    (h : P1Inv st) :
    P1Inv (L.foldl (fun st kg => pass1Group kg.1 st kg.2) st) := by
  induction L generalizing st with
  | nil => exact h
  | cons kg t ih => exact ih (pass1Group_inv h kg.1 kg.2)

theorem pass1_inv (drawings : List Drawing) : P1Inv (pass1 drawings) := by
  apply pass1_fold_inv
  constructor <;> simp

theorem pass1Group_mono {st : Pass1State} (k1 : Nat) (grp : NodeGroup)
    {q : MapPort} (h : (st.pm q).isSome = true) :
    ((pass1Group k1 st grp).pm q).isSome = true := by
  obtain ⟨p0, ports⟩ := grp
  cases ports with
  | nil => exact h
  | cons p ps =>
    rw [pass1Group_cons]
    by_cases hmem : q ∈ (p :: ps).map (globalize k1)
    · show (if q ∈ (p :: ps).map (globalize k1) then some st.counter
           else st.pm q).isSome = true
      rw [if_pos hmem]
      rfl
    · show (if q ∈ (p :: ps).map (globalize k1) then some st.counter
           else st.pm q).isSome = true
      rw [if_neg hmem]
      exact h

theorem pass1_fold_mono (L : List (Nat × NodeGroup)) {st : Pass1State}
    {q : MapPort} (h : (st.pm q).isSome = true) :
    (((L.foldl (fun st kg => pass1Group kg.1 st kg.2) st)).pm q).isSome = true := by
  induction L generalizing st with
  | nil => exact h
  | cons kg t ih => exact ih (pass1Group_mono kg.1 kg.2 h)

/-- After pass 1, every port of every scanned group is tentatively bound. -/
theorem pass1_fold_cover (L : List (Nat × NodeGroup)) (st : Pass1State) :
    ∀ kg ∈ L, ∀ port ∈ kg.2.2,
      (((L.foldl (fun st kg => pass1Group kg.1 st kg.2) st)).pm
        (globalize kg.1 port)).isSome = true := by
  induction L generalizing st with
  | nil => intro kg h; cases h
  | cons kg0 t ih =>
    intro kg hkg port hport
    rw [List.foldl_cons]
    rcases List.mem_cons.mp hkg with hkg | hkg
    · subst hkg
      apply pass1_fold_mono t
      obtain ⟨k1, p0, ports⟩ := kg
      dsimp only at hport ⊢
      cases ports with
      | nil => cases hport
      | cons p ps =>
        rw [pass1Group_cons]
        dsimp only
        have hmem : globalize k1 port ∈ (p :: ps).map (globalize k1) :=
          List.mem_map.mpr ⟨port, hport, rfl⟩
        rw [if_pos hmem]
        rfl
    · exact ih _ kg hkg port hport

theorem pass1_cover (drawings : List Drawing) :
    ∀ kg ∈ allGroups drawings, ∀ port ∈ kg.2.2,
      ((pass1 drawings).pm (globalize kg.1 port)).isSome = true :=
  pass1_fold_cover (allGroups drawings) _

/-- The four output fields of a successful resolution. -/
theorem setup_ok_fields {drawings : List Drawing} {r : ResolveOut}
    (h : setup_base_model drawings = .ok r) :
    r.port_mapping = setupPM drawings ∧
    r.virtual_global_nodes = (pass1 drawings).virtuals := by
  unfold setup_base_model at h
  rcases hp : pass2 drawings (setupPM drawings) with e | st2 <;> rw [hp] at h
  · cases h
  · cases h
    exact ⟨rfl, rfl⟩

/-- Every value of the unified `port_mapping` avoids the virtual nodes. -/
theorem setupPM_not_virtual (drawings : List Drawing) :
    ∀ q v, setupPM drawings q = some v → v ∉ (pass1 drawings).virtuals := by
  intro q v hv
  have hinv := pass1_inv drawings
  rcases assignFold_range hv with h1 | h1
  · exact hinv.pm_nv q v h1
  · intro hcontra
    exact absurd (hinv.virt_lt v hcontra) (by omega)

/-! ### Claims about the topology resolver -/

/-- C1: the duplicate-port unifier computes the coarsest partition of the
referenced port keys: after the merged classes are rebound to fresh global
nodes (the rebinding loop of `setup_base_model`), two port keys occurring in
duplicate groups are mapped to the same global node id iff a chain of
duplicate-group memberships connects them; in particular the groups
`[A, B]` and `[B, C]` merge into the single class `{A, B, C}`. -/
theorem c1_unifier_coarsest_partition
    (groups : List (List MapPort)) (start : Nat) (m : MapPort → Option Nat)
    (hne : ∀ g ∈ groups, g ≠ [])
    {x y : MapPort} (hx : ∃ g ∈ groups, x ∈ g) (hy : ∃ g ∈ groups, y ∈ g) :
    ((assignFold (combine_connected_nodes groups) start m).1 x =
       (assignFold (combine_connected_nodes groups) start m).1 y ↔
      connectedKeys groups x y) := by
  have hinv := combine_inv groups hne
  obtain ⟨c, hc, hxc⟩ := (hinv.cover x).mpr hx
  obtain ⟨d, hd, hyd⟩ := (hinv.cover y).mpr hy
  rw [assignFold_iff hinv.disj hc hd hxc hyd start m]
  constructor
  · intro hcd
    subst hcd
    exact hinv.conn c hc x hxc y hyd
  · intro hconn
    have hyc : y ∈ c := (ccinv_class_stable hinv hconn c hc).mp hxc
    exact uniqueContainer hinv.disj hc hd hyc hyd

/-- Witness for C1 at the groups `[[A, B], [B, C]]`: `A` and `C` are
chain-connected, hence rebound to the same global node, and the unifier
produces a single merged class. -/
theorem c1_unifier_coarsest_partition_witness :
    ((assignFold (combine_connected_nodes abGroups) 5 (fun _ => none)).1 portA =
      (assignFold (combine_connected_nodes abGroups) 5 (fun _ => none)).1 portC) ∧
    (combine_connected_nodes abGroups).length = 1 := by
  constructor
  · exact (c1_unifier_coarsest_partition abGroups 5 (fun _ => none)
      (by decide) (by decide) (by decide)).mpr
      (Relation.EqvGen.trans portA portB portC
        (Relation.EqvGen.rel portA portB
          ⟨[portA, portB], by decide, by decide, by decide⟩)
        (Relation.EqvGen.rel portB portC
          ⟨[portB, portC], by decide, by decide, by decide⟩))
  · decide

/-- C2 (code bug): an element exposing a port group with an empty port list
is supported by pass 1, which allocates a virtual global node for it, but
pass 2 evaluates `ports[0]` unguarded and faults with `IndexError`, so the
resolution does not complete and no local node is recorded. -/
theorem c2_empty_port_group_faults :
    setup_base_model [[[(0, ([] : List Port))]]] = .error .indexError ∧
    (pass1 [[[(0, ([] : List Port))]]]).virtuals = [0] := ⟨rfl, rfl⟩

/-- C7: resolution is deterministic and idempotent: model states with equal
drawing structures resolve to identical `port_mapping` and `node_mapping`
(the method discards all previous mapping state first), and re-running the
resolver on a freshly resolved state reproduces its mappings. -/
theorem c7_resolution_deterministic_idempotent
    (s s' t t' : ModelState)
    (hs : setup_state s = .ok s') (ht : setup_state t = .ok t')
    (hdr : t.drawing_models = s.drawing_models) :
    (t'.port_mapping = s'.port_mapping ∧ t'.node_mapping = s'.node_mapping) ∧
    ∃ s'', setup_state s' = .ok s'' ∧
      s''.port_mapping = s'.port_mapping ∧ s''.node_mapping = s'.node_mapping := by
  unfold setup_state at hs ht
  rcases hbs : setup_base_model s.drawing_models with e | r <;> rw [hbs] at hs
  · cases hs
  rcases hbt : setup_base_model t.drawing_models with e | rt <;> rw [hbt] at ht
  · cases ht
  cases hs
  cases ht
  have hrr : rt = r := by
    rw [hdr, hbs] at hbt
    exact (Except.ok.inj hbt).symm
  subst hrr
  have hnext : setup_state { s with port_mapping := rt.port_mapping, node_mapping := rt.node_mapping, global_nodes := rt.global_nodes, virtual_global_nodes := rt.virtual_global_nodes } = .ok { s with port_mapping := rt.port_mapping, node_mapping := rt.node_mapping, global_nodes := rt.global_nodes, virtual_global_nodes := rt.virtual_global_nodes } := by
    unfold setup_state
    dsimp only
    rw [hbs]
  exact ⟨⟨rfl, rfl⟩, ⟨_, hnext, rfl, rfl⟩⟩

/-- Witness for C7: two states sharing `exampleDrawings` but with different
stale mappings resolve identically, and resolving the resolved state again
reproduces its mappings. -/
theorem c7_resolution_deterministic_idempotent_witness :
    ∃ s' t', setup_state exampleState1 = .ok s' ∧
      setup_state exampleState2 = .ok t' ∧
      (t'.port_mapping = s'.port_mapping ∧ t'.node_mapping = s'.node_mapping) ∧
      ∃ s'', setup_state s' = .ok s'' ∧
        s''.port_mapping = s'.port_mapping ∧
        s''.node_mapping = s'.node_mapping := by
  obtain ⟨h1, h2⟩ := c7_resolution_deterministic_idempotent
    exampleState1 _ exampleState2 _ rfl rfl rfl
  exact ⟨_, _, rfl, rfl, h1, h2⟩

/-- C8: virtual node isolation: no virtual global node occurs as a value of
the final `port_mapping`, and every member of every duplicate group passed
to the unifier is a port key bound to a non-virtual global node. -/
theorem c8_virtual_node_isolation
    (drawings : List Drawing) (r : ResolveOut)
    (h : setup_base_model drawings = .ok r) :
    (∀ q v, r.port_mapping q = some v → v ∉ r.virtual_global_nodes) ∧
    (∀ g ∈ (pass1 drawings).dups, ∀ q ∈ g,
        ∃ v, r.port_mapping q = some v ∧ v ∉ r.virtual_global_nodes) := by
  obtain ⟨hpm, hvirt⟩ := setup_ok_fields h
  constructor
  · intro q v hv
    rw [hpm] at hv
    rw [hvirt]
    exact setupPM_not_virtual drawings q v hv
  · intro g hg q hq
    have hsome := (pass1_inv drawings).dups_some g hg q hq
    have hsome2 : ((setupPM drawings) q).isSome = true := by
      unfold setupPM
      exact assignFold_isSome hsome
    obtain ⟨v, hv⟩ := Option.isSome_iff_exists.mp hsome2
    refine ⟨v, ?_, ?_⟩
    · rw [hpm]; exact hv
    · rw [hvirt]; exact setupPM_not_virtual drawings q v hv

/-- Witness for C8 at `exampleDrawings`. -/
theorem c8_virtual_node_isolation_witness :
    ∃ r, setup_base_model exampleDrawings = .ok r ∧
      (∀ q v, r.port_mapping q = some v → v ∉ r.virtual_global_nodes) := by
  refine ⟨_, rfl, ?_⟩
  exact (c8_virtual_node_isolation exampleDrawings _ rfl).1

/-- C9: after a successful resolution every port key referenced by any
element's port group appears in the domain of `port_mapping`; and a port
key that reaches pass 2 unregistered makes the resolver fail fast with the
unbound-port-reference condition instead of silently binding a fresh
node. -/
theorem c9_port_coverage_unbound_fail_fast
    (drawings : List Drawing) (r : ResolveOut)
    (h : setup_base_model drawings = .ok r) :
    (∀ kg ∈ allGroups drawings, ∀ port ∈ kg.2.2,
        (r.port_mapping (globalize kg.1 port)).isSome = true) ∧
    (∀ (k1 : Nat) (pm : MapPort → Option Nat) (st : Pass2State) (p0 : Nat)
        (port : Port) (rest : List Port), pm (globalize k1 port) = none →
        pass2Group k1 pm st (p0, port :: rest) = .error .unboundPortReference) := by
  obtain ⟨hpm, _⟩ := setup_ok_fields h
  constructor
  · intro kg hkg port hport
    rw [hpm]
    unfold setupPM
    exact assignFold_isSome (pass1_cover drawings kg hkg port hport)
  · intro k1 pm st p0 port rest hnone
    unfold pass2Group
    dsimp only
    rw [hnone]

/-- Witness for C9 at `exampleDrawings` and at a concrete unregistered
lookup. -/
theorem c9_port_coverage_unbound_fail_fast_witness :
    ∃ r, setup_base_model exampleDrawings = .ok r ∧
      (r.port_mapping (globalize 0 (Port.samePage 0 0))).isSome = true ∧
      pass2Group 0 (fun _ => none) ⟨fun _ => none, []⟩ (0, [Port.samePage 2 2])
        = .error .unboundPortReference := by
  refine ⟨_, rfl, ?_, ?_⟩
  · exact (c9_port_coverage_unbound_fail_fast exampleDrawings _ rfl).1
      (0, (7, [Port.samePage 0 0])) (by decide) (Port.samePage 0 0) (by decide)
  · exact (c9_port_coverage_unbound_fail_fast exampleDrawings _ rfl).2
      0 (fun _ => none) ⟨fun _ => none, []⟩ 0 (Port.samePage 2 2) [] rfl

/-! ### Geometric sampling lemmas -/

theorem geomspace_length (i1 i2 : ℝ) (n : ℕ) :
    (geomspace i1 i2 n).length = n := by
  simp [geomspace]

theorem geomspace_head (i1 i2 : ℝ) {n : ℕ} (hn : 1 ≤ n) :
    (geomspace i1 i2 n).head? = some i1 := by
  obtain ⟨m, rfl⟩ : ∃ m, n = m + 1 := ⟨n - 1, by omega⟩
  unfold geomspace
  rw [List.range_succ_eq_map]
  simp [Real.rpow_zero]

theorem geomspace_getLast (i1 i2 : ℝ) (hi1 : i1 ≠ 0) {n : ℕ} (hn : 2 ≤ n) :
    (geomspace i1 i2 n).getLast? = some i2 := by
  obtain ⟨m, rfl⟩ : ∃ m, n = m + 1 := ⟨n - 1, by omega⟩
  unfold geomspace
  rw [List.getLast?_map, List.range_succ, List.getLast?_concat,
    Option.map_some']
  have hcast : ((m + 1 : ℕ) : ℝ) - 1 = (m : ℝ) := by push_cast; ring
  have hm : (m : ℝ) ≠ 0 := Nat.cast_ne_zero.mpr (by omega)
  rw [hcast, div_self hm, Real.rpow_one, mul_comm, div_mul_cancel₀ _ hi1]

theorem geomspace_pairwise {i1 i2 : ℝ} (h0 : 0 < i1) (h12 : i1 < i2) (n : ℕ) :
    (geomspace i1 i2 n).Pairwise (· < ·) := by
  match n with
  | 0 => simp [geomspace]
  | 1 => simp [geomspace]
  | (m + 2) =>
    have hb : 1 < i2 / i1 := (one_lt_div h0).mpr h12
    have hd : (0 : ℝ) < ((m + 2 : ℕ) : ℝ) - 1 := by
      push_cast
      have : (0 : ℝ) ≤ (m : ℝ) := Nat.cast_nonneg m
      linarith
    unfold geomspace
    refine (List.pairwise_lt_range _).map _ ?_
    intro a b hab
    have hexp : (a : ℝ) / (((m + 2 : ℕ) : ℝ) - 1) <
        (b : ℝ) / (((m + 2 : ℕ) : ℝ) - 1) :=
      (div_lt_div_iff_of_pos_right hd).mpr (by exact_mod_cast hab)
    exact mul_lt_mul_of_pos_left
      ((Real.rpow_lt_rpow_left_iff hb).mpr hexp) h0

/-! ### Claims about the curve engine -/

/-- C3 (counterexample): at `n = 1` the `iec` sampling returns the single
current `[i1] = [100]`; the upper endpoint `i2 = 1000` is not included, so
the claim that every argument tuple with `i2 > i1` yields both endpoints is
false as stated. -/
theorem c3_single_sample_counterexample :
    (iec 1 100 0.14 0 0.02 100 1000 0.01 1).1 = [(100 : ℝ)] ∧
    (1000 : ℝ) ∉ (iec 1 100 0.14 0 0.02 100 1000 0.01 1).1 := by
  have hg : geomspace (100 : ℝ) 1000 1 = [100] := by
    unfold geomspace
    have hr1 : List.range 1 = [0] := rfl
    rw [hr1]
    norm_num [Real.rpow_zero]
  have h1 : (iec 1 100 0.14 0 0.02 100 1000 0.01 1).1 = [(100 : ℝ)] := by
    unfold iec
    rw [if_pos (by norm_num : (1000 : ℝ) > 100)]
    exact hg
  refine ⟨h1, ?_⟩
  rw [h1]
  simp only [List.mem_singleton]
  norm_num

/-- C3 (amended): for every argument tuple, if `i2 ≤ i1` then `iec` returns
two empty sequences; if `i1 < i2` it returns exactly `n` geometrically
spaced currents, each paired with `max(tms*(k/((i/i_n)^alpha - 1) + c),
t_min)`, every time value is at least `t_min`, and — provided `0 < i1` —
the currents are strictly increasing, with both endpoints included once
`n ≥ 2` (at `n = 1` only `i1` is sampled). -/
theorem c3_iec_sampling_amended
    (tms i_n k c alpha i1 i2 t_min : ℝ) (n : ℕ) :
    (i2 ≤ i1 → iec tms i_n k c alpha i1 i2 t_min n = ([], [])) ∧
    (i1 < i2 →
      (iec tms i_n k c alpha i1 i2 t_min n).1 = geomspace i1 i2 n ∧
      (iec tms i_n k c alpha i1 i2 t_min n).1.length = n ∧
      (iec tms i_n k c alpha i1 i2 t_min n).2 =
        (geomspace i1 i2 n).map
          (fun i => max (tms * (k / ((i / i_n) ^ alpha - 1) + c)) t_min) ∧
      (∀ t ∈ (iec tms i_n k c alpha i1 i2 t_min n).2, t_min ≤ t) ∧
      (0 < i1 →
        (iec tms i_n k c alpha i1 i2 t_min n).1.Pairwise (· < ·) ∧
        (2 ≤ n →
          (iec tms i_n k c alpha i1 i2 t_min n).1.head? = some i1 ∧
          (iec tms i_n k c alpha i1 i2 t_min n).1.getLast? = some i2))) := by
  constructor
  · intro h21
    unfold iec
    rw [if_neg (not_lt.mpr h21)]
  · intro h12
    have hcur : (iec tms i_n k c alpha i1 i2 t_min n).1 = geomspace i1 i2 n := by
      unfold iec
      rw [if_pos h12]
    have htim : (iec tms i_n k c alpha i1 i2 t_min n).2 =
        (geomspace i1 i2 n).map
          (fun i => max (tms * (k / ((i / i_n) ^ alpha - 1) + c)) t_min) := by
      unfold iec
      rw [if_pos h12]
    refine ⟨hcur, ?_, htim, ?_, ?_⟩
    · rw [hcur]; exact geomspace_length i1 i2 n
    · intro t ht
      rw [htim] at ht
      obtain ⟨i, -, rfl⟩ := List.mem_map.mp ht
      exact le_max_right _ _
    · intro h0
      refine ⟨?_, ?_⟩
      · rw [hcur]; exact geomspace_pairwise h0 h12 n
      · intro hn2
        rw [hcur]
        exact ⟨geomspace_head i1 i2 (by omega),
               geomspace_getLast i1 i2 (ne_of_gt h0) hn2⟩

/-- Witness for C3 at the claim's concrete tuple
`(tms, i_n, k, c, alpha, i1, i2, t_min, n) = (1, 100, 0.14, 0, 0.02, 100,
1000, 0.01, 10)`: strictly increasing currents, both endpoints, and every
time at least `0.01`. -/
theorem c3_iec_sampling_amended_witness :
    (100 : ℝ) < 1000 ∧
    (iec 1 100 0.14 0 0.02 100 1000 0.01 10).1.Pairwise (· < ·) ∧
    (∀ t ∈ (iec 1 100 0.14 0 0.02 100 1000 0.01 10).2, (0.01 : ℝ) ≤ t) ∧
    (iec 1 100 0.14 0 0.02 100 1000 0.01 10).1.head? = some 100 ∧
    (iec 1 100 0.14 0 0.02 100 1000 0.01 10).1.getLast? = some 1000 := by
  have h12 : (100 : ℝ) < 1000 := by norm_num
  obtain ⟨-, h⟩ := c3_iec_sampling_amended 1 100 0.14 0 0.02 100 1000 0.01 10
  obtain ⟨-, -, -, hge, hmono⟩ := h h12
  obtain ⟨hpair, hends⟩ := hmono (by norm_num)
  obtain ⟨hhead, hlast⟩ := hends (by norm_num)
  exact ⟨h12, hpair, hge, hhead, hlast⟩

/-- If one argument of a list fails to resolve, resolving the whole list
fails. -/
theorem resolveArgs_error_of_mem {f d : Scope} {args : List CurveArg}
    {a : CurveArg} (ha : a ∈ args) {sc fld : String}
    (he : resolveArg f d a = .error (CurveError.unresolvedSymbol sc fld)) :
    ∃ e, resolveArgs f d args = .error e := by
  induction args with
  | nil => cases ha
  | cons b rest ih =>
    rcases List.mem_cons.mp ha with hab | ha'
    · subst hab
      exact ⟨_, by unfold resolveArgs; rw [he]⟩
    · rcases hb : resolveArg f d b with e | v
      · exact ⟨e, by unfold resolveArgs; rw [hb]⟩
      · obtain ⟨e, he'⟩ := ih ha'
        exact ⟨e, by unfold resolveArgs; rw [hb, he']⟩

/-- A curve containing an invalid segment never evaluates to a sample
list: `eval_segments` fails. -/
theorem eval_segments_error_of_bad (f d : Scope) : ∀ curve : List Segment,
    (∃ seg ∈ curve, segmentInvalid f d seg) →
    ∃ e, eval_segments f d curve = .error e := by
  intro curve
  induction curve with
  | nil =>
    rintro ⟨seg, hseg, -⟩
    cases hseg
  | cons hd rest ih =>
    intro hbad
    obtain ⟨name, args⟩ := hd
    by_cases hk : knownFunction name = true
    · rcases hra : resolveArgs f d args with e | vs
      · exact ⟨e, by unfold eval_segments; rw [if_pos hk, hra]⟩
      · rcases happ : applyFunc name vs with e | pr
        · refine ⟨e, ?_⟩
          unfold eval_segments
          rw [if_pos hk]
          simp only [hra, happ]
        · obtain ⟨ia, ta⟩ := pr
          have hrest : ∃ seg ∈ rest, segmentInvalid f d seg := by
            obtain ⟨seg, hseg, hbadseg⟩ := hbad
            rcases List.mem_cons.mp hseg with hseg' | hmem
            · subst hseg'
              rcases hbadseg with hname | ⟨a, ha, sc, fld, he⟩
              · exact absurd hk (by simp [hname])
              · obtain ⟨e, he'⟩ := resolveArgs_error_of_mem ha he
                rw [he'] at hra
                cases hra
            · exact ⟨seg, hmem, hbadseg⟩
          obtain ⟨e, he⟩ := ih hrest
          refine ⟨e, ?_⟩
          unfold eval_segments
          rw [if_pos hk]
          simp only [hra, happ, he]
    · exact ⟨.unknownFunction name,
        by unfold eval_segments; rw [if_neg hk]⟩

/-- C4: a curve specification containing a segment whose function name is
not in the function table, or with a symbolic argument that does not resolve
against the `f` and `d` scopes, makes curve evaluation fail with a typed
curve-specification error; it never returns a point list. -/
theorem c4_invalid_spec_error (f d : Scope) (curve : List Segment)
    (hbad : ∃ seg ∈ curve, segmentInvalid f d seg) :
    (∃ e, eval_curve f d curve = .error e) ∧
    ∀ pts, eval_curve f d curve ≠ .ok pts := by
  obtain ⟨e, he⟩ := eval_segments_error_of_bad f d curve hbad
  have herr : eval_curve f d curve = .error e := by
    unfold eval_curve
    rw [he]
    rfl
  refine ⟨⟨e, herr⟩, ?_⟩
  intro pts hcontra
  rw [herr] at hcontra
  cases hcontra

/-- Witness for C4 at an unknown function name and at an unresolvable
symbolic argument. -/
theorem c4_invalid_spec_error_witness :
    (∃ e, eval_curve [] [] [("bogus", [])] = .error e) ∧
    (∃ e, eval_curve [] []
        [("point", [CurveArg.ref "f" "tms", CurveArg.num 5])] = .error e) := by
  constructor
  · exact (c4_invalid_spec_error [] [] [("bogus", [])]
      ⟨("bogus", []), List.mem_singleton.mpr rfl, Or.inl (by decide)⟩).1
  · exact (c4_invalid_spec_error [] []
      [("point", [CurveArg.ref "f" "tms", CurveArg.num 5])]
      ⟨("point", [CurveArg.ref "f" "tms", CurveArg.num 5]),
        List.mem_singleton.mpr rfl,
        Or.inr ⟨CurveArg.ref "f" "tms", List.mem_cons_self _ _, "f", "tms",
          rfl⟩⟩).1

/-- A successful polygon construction returns its boundary points
unchanged. -/
theorem Polygon_mk_ok {pts poly : List (ℝ × ℝ)}
    (h : Polygon_mk pts = .ok poly) : poly = pts := by
  unfold Polygon_mk at h
  by_cases hl : pts.length < 3
  · rw [if_pos hl] at h; cases h
  · rw [if_neg hl] at h; exact (Except.ok.inj h).symm

/-- C5: for all evaluated upper and lower curves, the coordination
polygon's boundary point sequence is the reversed upper curve concatenated
with the lower curve, and the two boundary line strings are the reversed
upper curve and the lower curve in evaluation order. -/
theorem c5_polygon_boundary (f d : Scope) (cu cl : List Segment)
    (u l : List (ℝ × ℝ)) (res : CurveEval)
    (hu : eval_curve f d cu = .ok u) (hl : eval_curve f d cl = .ok l)
    (hres : evaluate_curves f d cu cl = .ok res) :
    res.polygon = u.reverse ++ l ∧
    res.linestring_upper = u.reverse ∧ res.linestring_lower = l := by
  unfold evaluate_curves at hres
  simp only [hu, hl] at hres
  rcases hp : Polygon_mk (u.reverse ++ l) with e | poly
  · rw [hp] at hres
    cases hres
  · rw [hp] at hres
    cases hres
    exact ⟨Polygon_mk_ok hp, rfl, rfl⟩

/-- Witness for C5 at upper `[(1,10),(2,5)]` and lower `[(1,1),(2,0.5)]`:
the boundary is `[(2,5),(1,10),(1,1),(2,0.5)]`. -/
theorem c5_polygon_boundary_witness :
    ∃ res, evaluate_curves [] [] exampleUpper exampleLower = .ok res ∧
      res.polygon = [((2 : ℝ), (5 : ℝ)), (1, 10), (1, 1), (2, 0.5)] := by
  refine ⟨_, rfl, ?_⟩
  have h := c5_polygon_boundary [] [] exampleUpper exampleLower
    [(1, 10), (2, 5)] [(1, 1), (2, 0.5)] _ rfl rfl rfl
  rw [h.1]
  rfl

/-- C6 (counterexample): with an empty upper curve and the two-point lower
curve the combined boundary has two points; `evaluate_curves` performs no
degenerate-geometry detection of its own — the external polygon constructor
faults and the fault propagates out of curve evaluation, which therefore
neither completes nor reports a recoverable condition. -/
theorem c6_degenerate_detection_counterexample :
    evaluate_curves [] [] [] exampleLower = .error .degenerateGeometry ∧
    ∀ res, evaluate_curves [] [] [] exampleLower ≠ .ok res := by
  refine ⟨rfl, ?_⟩
  intro res hcontra
  cases hcontra

/-- C6 (amended): when the combined evaluated curves contain fewer than 3
points, `evaluate_curves` does not detect the case itself; the external
polygon constructor faults and the fault propagates out of the evaluation
(no polygon is synthesized and no recoverable condition is reported). -/
theorem c6_degenerate_fault_amended (f d : Scope) (cu cl : List Segment)
    (u l : List (ℝ × ℝ)) (hu : eval_curve f d cu = .ok u)
    (hl : eval_curve f d cl = .ok l) (hlen : (u.reverse ++ l).length < 3) :
    evaluate_curves f d cu cl = .error .degenerateGeometry := by
  unfold evaluate_curves
  rw [hu, hl]
  have hlen' : u.length + l.length < 3 := by simpa using hlen
  simp [Polygon_mk, hlen']

/-- Witness for the amended C6 at an empty upper curve and a two-point
lower curve. -/
theorem c6_degenerate_fault_amended_witness :
    evaluate_curves [] [] [] exampleLower = .error .degenerateGeometry :=
  c6_degenerate_fault_amended [] [] [] exampleLower [] [(1, 1), (2, 0.5)]
    rfl rfl (by decide)

/-- C10: unlike `iec` and `i2t`, the `thermal` function has no
degenerate-segment guard: for `i2 ≤ i1` and `n ≥ 1` it still returns `n`
sampled currents and `n` times computed from the geometric spacing, never
the empty pair that `iec` and `i2t` return for the same current bounds. -/
theorem c10_thermal_no_degenerate_guard
    (tms i_n k c alpha i1 i2 t_min : ℝ) (n : ℕ) (hn : 1 ≤ n)
    (h21 : i2 ≤ i1) :
    (thermal tms i_n i1 i2 n).1 = geomspace i1 i2 n ∧
    (thermal tms i_n i1 i2 n).1.length = n ∧
    (thermal tms i_n i1 i2 n).2.length = n ∧
    (thermal tms i_n i1 i2 n) ≠ ([], []) ∧
    iec tms i_n k c alpha i1 i2 t_min n = ([], []) ∧
    i2t tms i_n k alpha i1 i2 t_min n = ([], []) := by
  have hno : ¬ (i2 > i1) := not_lt.mpr h21
  refine ⟨rfl, ?_, ?_, ?_, ?_, ?_⟩
  · exact geomspace_length i1 i2 n
  · show ((geomspace i1 i2 n).map _).length = n
    rw [List.length_map]
    exact geomspace_length i1 i2 n
  · intro hcontra
    have h1 : geomspace i1 i2 n = [] := congrArg Prod.fst hcontra
    have h2 := geomspace_length i1 i2 n
    rw [h1] at h2
    simp at h2
    omega
  · unfold iec; rw [if_neg hno]
  · unfold i2t; rw [if_neg hno]

/-- Witness for C10 at `thermal(1, 50, 200, 100, 5)` against
`iec(…, i1=200, i2=100, …)`. -/
theorem c10_thermal_no_degenerate_guard_witness :
    (thermal 1 50 200 100 5).1.length = 5 ∧
    (thermal 1 50 200 100 5) ≠ ([], []) ∧
    iec 1 50 1 0 1 200 100 0.01 5 = ([], []) := by
  obtain ⟨-, hlen, -, hne, hiec, -⟩ :=
    c10_thermal_no_degenerate_guard 1 50 1 0 1 200 100 0.01 5
      (by norm_num) (by norm_num)
  exact ⟨hlen, hne, hiec⟩

end GElectrical
